import Mathlib

/-!
Verification development for the Cardano-Tools `ShelleyTools` class
(`cardano_tools/shelley_tools.py`).

Python integers are modelled as `Int` (they are arbitrary precision), the
node's human-readable query output as tokenized rows (`List String`), and
each method's observable behaviour as a pure function.  Stateful behaviour
(the `protocol_parameters` field mutated by `load_protocol_parameters`) is
modelled by explicit state passing.
-/

namespace CardanoTools

/-! ## The greedy UTXO selection loop

All four coin-selection loops in the source
(`build_raw_transaction`, `register_stake_address`, `register_stake_pool`,
`update_stake_pool_registration`) have the same shape: walk the sorted UTXO
list, keep a running count and running total of the appended inputs, and
after each append decide from `(count, total)` whether to break.  The fee
returned by `calc_min_fee` for a given prefix is modelled by a function
`fee : Nat → Int` of the prefix length, since the draft body built in each
iteration is determined by the selected prefix. -/

def selectLoop (brk : Nat → Int → Bool) : List Int → Nat → Int → Nat × Int
  | [], n, t => (n, t)
  | a :: rest, n, t =>
    let n1 := n + 1
    let t1 := t + a
    if brk n1 t1 then (n1, t1) else selectLoop brk rest n1 t1

/-- Characterization of the greedy loop: it consumes a prefix of length `k`,
returns the running total of that prefix, never breaks strictly before `k`,
and breaks at `k` whenever it stopped before exhausting the list. -/
theorem selectLoop_char (brk : Nat → Int → Bool) :
    ∀ (l : List Int) (n : Nat) (t : Int),
      ∃ k, k ≤ l.length ∧ (0 < l.length → 1 ≤ k) ∧
        selectLoop brk l n t = (n + k, t + (l.take k).sum) ∧
        (∀ j, 1 ≤ j → j < k → brk (n + j) (t + (l.take j).sum) = false) ∧
        (k < l.length → brk (n + k) (t + (l.take k).sum) = true) := by
  intro l
  induction l with
  | nil =>
    intro n t
    refine ⟨0, Nat.le_refl 0, ?_, ?_, ?_, ?_⟩
    · intro h; exact absurd h (by simp)
    · simp [selectLoop]
    · intro j h1 hj; exact absurd hj (by omega)
    · intro h; exact absurd h (by simp)
  | cons a rest ih =>
    intro n t
    by_cases h : brk (n + 1) (t + a) = true
    · refine ⟨1, by simp, fun _ => Nat.le_refl 1, ?_, ?_, ?_⟩
      · simp [selectLoop, h]
      · intro j h1 hj; exact absurd hj (by omega)
      · intro _; simpa using h
    · obtain ⟨k, hk, hpos, heq, hno, hbrk⟩ := ih (n + 1) (t + a)
      have hfalse : brk (n + 1) (t + a) = false := by
        cases hb : brk (n + 1) (t + a) with
        | false => rfl
        | true => exact absurd hb h
      refine ⟨k + 1, by simpa using Nat.succ_le_succ hk, fun _ => by omega, ?_, ?_, ?_⟩
      · have hstep : selectLoop brk (a :: rest) n t = selectLoop brk rest (n + 1) (t + a) := by
          simp [selectLoop, hfalse]
        rw [hstep, heq]
        have h1 : n + 1 + k = n + (k + 1) := by omega
        have h2 : t + a + (rest.take k).sum = t + ((a :: rest).take (k + 1)).sum := by
          simp [List.take_succ_cons]
          ring
        rw [h1, h2]
      · intro j h1 hj
        cases j with
        | zero => exact absurd h1 (by omega)
        | succ j0 =>
          cases Nat.eq_zero_or_pos j0 with
          | inl hz =>
            subst hz
            simpa [List.take_succ_cons] using hfalse
          | inr hp =>
            have hj0 : j0 < k := by omega
            have := hno j0 hp hj0
            have harith : n + (j0 + 1) = n + 1 + j0 := by omega
            have hsum : t + ((a :: rest).take (j0 + 1)).sum
                = t + a + (rest.take j0).sum := by
              simp [List.take_succ_cons]
              ring
            rw [harith, hsum]
            exact this
      · intro hlt
        have hklt : k < rest.length := by simpa using Nat.lt_of_succ_lt_succ hlt
        have := hbrk hklt
        have harith : n + (k + 1) = n + 1 + k := by omega
        have hsum : t + ((a :: rest).take (k + 1)).sum
            = t + a + (rest.take k).sum := by
          simp [List.take_succ_cons]
          ring
        rw [harith, hsum]
        exact this

/-! ## `build_raw_transaction` (shelley_tools.py, lines 923-1085) -/

/-- Python `sys.maxsize` on a 64-bit platform, the sentinel initial value of
`lovelaces_out` (line 1006). -/
def maxsize : Int := 2 ^ 63 - 1

/-- A successfully assembled raw transaction body: the inputs' running total,
the payment outputs, the optional change output, the fee and the certificate
deposits it pays. -/
structure Draft where
  inputsTotal : Int
  payments : List Int
  change : Option Int
  fee : Int
  deposits : Int
deriving DecidableEq

/-- Terminal outcome of an assembly method: one of the raised
`ShelleyError`s, or a built draft. -/
inductive BuildResult where
  | emptyAccount : BuildResult
  | insufficientFunds (required available : Int) : BuildResult
  | dustChange (amount minimum : Int) : BuildResult
  | built (d : Draft) : BuildResult
deriving DecidableEq

/-- Break test of `build_raw_transaction`'s loop (line 1034):
`utxo_total > lovelaces_out and (utxo_amt > min_utxo or utxo_amt == 0)`
where `lovelaces_out = min_fee + deposits + total_payments` and
`utxo_amt = utxo_total - lovelaces_out`. -/
def buildBrk (fee : Nat → Int) (deposits total_payments min_utxo : Int)
    (k : Nat) (tot : Int) : Bool :=
  decide (tot > fee k + deposits + total_payments ∧
    (tot - (fee k + deposits + total_payments) > min_utxo ∨
     tot - (fee k + deposits + total_payments) = 0))

/-- The selection performed by `build_raw_transaction`'s loop
(lines 1010-1035): final `(utxo_count, utxo_total)`. -/
def buildSelection (fee : Nat → Int) (deposits total_payments min_utxo : Int)
    (amts : List Int) : Nat × Int :=
  selectLoop (buildBrk fee deposits total_payments min_utxo) amts 0 0

/-- Value of `lovelaces_out` after the loop: updated by every executed
iteration, still `sys.maxsize` (line 1006) when the loop body never ran. -/
def lovelacesOutAfter (fee : Nat → Int) (deposits total_payments : Int)
    (k : Nat) : Int :=
  if k = 0 then maxsize else fee k + deposits + total_payments

/-- Value of `min_fee` after the loop: updated by every executed iteration,
still `1` (line 1008) when the loop body never ran. -/
def minFeeAfter (fee : Nat → Int) (k : Nat) : Int :=
  if k = 0 then 1 else fee k

/-- Post-loop part of `build_raw_transaction` (lines 1037-1085): classify
failures, decide whether a change output is emitted, and assemble. -/
def assembleAfterLoop (fee : Nat → Int) (payments : List Int)
    (deposits min_utxo : Int) (r : Nat × Int) : BuildResult :=
  let utxo_total := r.2
  let lovelaces_out := lovelacesOutAfter fee deposits payments.sum r.1
  let min_fee := minFeeAfter fee r.1
  if utxo_total < lovelaces_out then
    if lovelaces_out = maxsize then BuildResult.emptyAccount
    else BuildResult.insufficientFunds lovelaces_out utxo_total
  else
    let utxo_amt := utxo_total - lovelaces_out
    if utxo_amt = 0 then
      BuildResult.built ⟨utxo_total, payments, none, min_fee, deposits⟩
    else if utxo_amt < min_utxo then
      BuildResult.dustChange utxo_amt min_utxo
    else
      BuildResult.built ⟨utxo_total, payments, some utxo_amt, min_fee, deposits⟩

/-- `build_raw_transaction` over the sorted UTXO amounts `amts`. -/
def build_raw_transaction (fee : Nat → Int) (payments : List Int)
    (deposits min_utxo : Int) (amts : List Int) : BuildResult :=
  assembleAfterLoop fee payments deposits min_utxo
    (buildSelection fee deposits payments.sum min_utxo amts)

/-- Stop condition of the loop, spelled out on the prefix of length `k`:
`total > required` and `(change > minUtxoValue or change == 0)` with
`required = fee + deposits + sum of payments` and `change = total - required`. -/
def buildStopCond (fee : Nat → Int) (deposits total_payments min_utxo : Int)
    (amts : List Int) (k : Nat) : Prop :=
  (amts.take k).sum > fee k + deposits + total_payments ∧
    ((amts.take k).sum - (fee k + deposits + total_payments) > min_utxo ∨
     (amts.take k).sum - (fee k + deposits + total_payments) = 0)

instance (fee : Nat → Int) (deposits total_payments min_utxo : Int)
    (amts : List Int) (k : Nat) :
    Decidable (buildStopCond fee deposits total_payments min_utxo amts k) := by
  unfold buildStopCond
  infer_instance

theorem buildBrk_eq_stopCond (fee : Nat → Int)
    (deposits total_payments min_utxo : Int) (amts : List Int) (k : Nat) :
    buildBrk fee deposits total_payments min_utxo k ((amts.take k).sum) = true ↔
      buildStopCond fee deposits total_payments min_utxo amts k := by
  unfold buildBrk buildStopCond
  exact decide_eq_true_iff

/-- C1: in the coin-selection loop of `build_raw_transaction`, with `total`
the running input sum, `required = fee + deposit + sum of payment amounts`
and `change = total - required`, the loop exits at exactly the first prefix
satisfying `total > required AND (change > minUtxoValue OR change == 0)`,
and otherwise continues to the next UTXO (possibly exhausting the list). -/
theorem build_loop_exit_at_first_satisfying (fee : Nat → Int)
    (payments : List Int) (deposits min_utxo : Int) (amts : List Int) :
    (buildSelection fee deposits payments.sum min_utxo amts).1 ≤ amts.length ∧
    (buildSelection fee deposits payments.sum min_utxo amts).2 =
      (amts.take (buildSelection fee deposits payments.sum min_utxo amts).1).sum ∧
    (∀ j, 1 ≤ j → j < (buildSelection fee deposits payments.sum min_utxo amts).1 →
      ¬ buildStopCond fee deposits payments.sum min_utxo amts j) ∧
    ((buildSelection fee deposits payments.sum min_utxo amts).1 < amts.length →
      buildStopCond fee deposits payments.sum min_utxo amts
        (buildSelection fee deposits payments.sum min_utxo amts).1) ∧
    (∀ j, 1 ≤ j → j ≤ amts.length →
      buildStopCond fee deposits payments.sum min_utxo amts j →
      (buildSelection fee deposits payments.sum min_utxo amts).1 ≤ j) := by
  obtain ⟨k, hk, hpos, heq, hno, hbrk⟩ :=
    selectLoop_char (buildBrk fee deposits payments.sum min_utxo) amts 0 0
  have hr : buildSelection fee deposits payments.sum min_utxo amts =
      (k, (amts.take k).sum) := by
    unfold buildSelection
    rw [heq]
    simp
  rw [hr]
  refine ⟨hk, rfl, ?_, ?_, ?_⟩
  · intro j h1 hj hcond
    have hb := hno j h1 hj
    simp only [Nat.zero_add, zero_add] at hb
    rw [(buildBrk_eq_stopCond fee deposits payments.sum min_utxo amts j).symm] at hcond
    rw [hb] at hcond
    exact Bool.false_ne_true hcond
  · intro hlt
    have hb := hbrk hlt
    simp only [Nat.zero_add, zero_add] at hb
    exact (buildBrk_eq_stopCond fee deposits payments.sum min_utxo amts k).mp hb
  · intro j h1 hjlen hcond
    by_contra hgt
    have hjk : j < k := by omega
    have hb := hno j h1 hjk
    simp only [Nat.zero_add, zero_add] at hb
    rw [(buildBrk_eq_stopCond fee deposits payments.sum min_utxo amts j).symm] at hcond
    rw [hb] at hcond
    exact Bool.false_ne_true hcond

/-! ## Certificate-paying variants of the selection loop

`register_stake_address` (lines 401-525), `register_stake_pool`
(lines 1258-1460) and `update_stake_pool_registration` (lines 1462-1714)
repeat the loop with different break tests and error checks.  All three
always emit the change output `utxo_total - cost`, even when it is zero. -/

/-- Selection performed by `register_stake_address`'s loop (lines 465-486):
break when `utxo_total > min_fee + stakeAddressDeposit`. -/
def regAddrSelection (fee : Nat → Int) (stake_deposit : Int)
    (amts : List Int) : Nat × Int :=
  selectLoop (fun k tot => decide (tot > fee k + stake_deposit)) amts 0 0

/-- `register_stake_address`: empty-account guard (lines 449-454), the loop,
the insufficiency check (line 488), then assembly with the change output
`utxo_total - cost` (line 501) where `cost = min_fee + stakeAddressDeposit`. -/
def register_stake_address (fee : Nat → Int) (stake_deposit : Int)
    (amts : List Int) : BuildResult :=
  if amts.length < 1 then BuildResult.emptyAccount
  else
    let r := regAddrSelection fee stake_deposit amts
    let cost := fee r.1 + stake_deposit
    if r.2 < cost then BuildResult.insufficientFunds cost r.2
    else BuildResult.built ⟨r.2, [], some (r.2 - cost), fee r.1, stake_deposit⟩

/-- Selection performed by `register_stake_pool`'s loop (lines 1401-1421):
break when `utxo_total > min_fee + pool_deposit + 10`. -/
def regPoolSelection (fee : Nat → Int) (pool_deposit : Int)
    (amts : List Int) : Nat × Int :=
  selectLoop (fun k tot => decide (tot > fee k + pool_deposit + 10)) amts 0 0

/-- `register_stake_pool`: the loop, the insufficiency check (line 1423,
against `min_fee + pool_deposit` without the tolerance), then assembly with
the change output `utxo_total - min_fee - pool_deposit` (line 1437).
`min_fee` starts at `1` (line 1399). -/
def register_stake_pool (fee : Nat → Int) (pool_deposit : Int)
    (amts : List Int) : BuildResult :=
  let r := regPoolSelection fee pool_deposit amts
  let min_fee := minFeeAfter fee r.1
  if r.2 < min_fee + pool_deposit then
    BuildResult.insufficientFunds (min_fee + pool_deposit) r.2
  else
    BuildResult.built
      ⟨r.2, [], some (r.2 - min_fee - pool_deposit), min_fee, pool_deposit⟩

/-- Selection performed by `update_stake_pool_registration`'s loop
(lines 1655-1675): `pool_deposit = 0` (line 1635), break when
`utxo_total > min_fee + pool_deposit`, i.e. `utxo_total > min_fee`. -/
def updatePoolSelection (fee : Nat → Int) (amts : List Int) : Nat × Int :=
  selectLoop (fun k tot => decide (tot > fee k + 0)) amts 0 0

/-- `update_stake_pool_registration`: the loop with zero deposit, the
insufficiency check (line 1677, against `min_fee` alone), then assembly with
the change output `utxo_total - min_fee - pool_deposit` (line 1691). -/
def update_stake_pool_registration (fee : Nat → Int)
    (amts : List Int) : BuildResult :=
  let pool_deposit : Int := 0
  let r := updatePoolSelection fee amts
  let min_fee := minFeeAfter fee r.1
  if r.2 < min_fee then
    BuildResult.insufficientFunds (min_fee + pool_deposit) r.2
  else
    BuildResult.built
      ⟨r.2, [], some (r.2 - min_fee - pool_deposit), min_fee, pool_deposit⟩

/-- C8: the pool-registration loop exits at the first prefix with
`total > fee + poolDeposit + 10`, while `register_stake_address` exits at the
first prefix with `total > fee + stakeAddressDeposit` and
`update_stake_pool_registration` (whose deposit is zero) at the first prefix
with `total > fee`, with no added tolerance.  Each conjunct states: the loop
never stops past the list, never breaks at an earlier prefix, and breaks at
the returned prefix whenever the list was not exhausted. -/
theorem variant_loops_break_conditions (fee : Nat → Int)
    (stake_deposit pool_deposit : Int) (amts : List Int) :
    ((regPoolSelection fee pool_deposit amts).1 ≤ amts.length ∧
      (∀ j, 1 ≤ j → j < (regPoolSelection fee pool_deposit amts).1 →
        ¬ ((amts.take j).sum > fee j + pool_deposit + 10)) ∧
      ((regPoolSelection fee pool_deposit amts).1 < amts.length →
        (amts.take (regPoolSelection fee pool_deposit amts).1).sum >
          fee (regPoolSelection fee pool_deposit amts).1 + pool_deposit + 10)) ∧
    ((regAddrSelection fee stake_deposit amts).1 ≤ amts.length ∧
      (∀ j, 1 ≤ j → j < (regAddrSelection fee stake_deposit amts).1 →
        ¬ ((amts.take j).sum > fee j + stake_deposit)) ∧
      ((regAddrSelection fee stake_deposit amts).1 < amts.length →
        (amts.take (regAddrSelection fee stake_deposit amts).1).sum >
          fee (regAddrSelection fee stake_deposit amts).1 + stake_deposit)) ∧
    ((updatePoolSelection fee amts).1 ≤ amts.length ∧
      (∀ j, 1 ≤ j → j < (updatePoolSelection fee amts).1 →
        ¬ ((amts.take j).sum > fee j)) ∧
      ((updatePoolSelection fee amts).1 < amts.length →
        (amts.take (updatePoolSelection fee amts).1).sum >
          fee (updatePoolSelection fee amts).1)) := by
  refine ⟨?_, ?_, ?_⟩
  · obtain ⟨k, hk, hpos, heq, hno, hbrk⟩ :=
      selectLoop_char (fun k tot => decide (tot > fee k + pool_deposit + 10)) amts 0 0
    have hr : regPoolSelection fee pool_deposit amts = (k, (amts.take k).sum) := by
      unfold regPoolSelection
      rw [heq]
      simp
    rw [hr]
    refine ⟨hk, ?_, ?_⟩
    · intro j h1 hj hcond
      have hb := hno j h1 hj
      simp only [zero_add] at hb
      rw [decide_eq_false_iff_not] at hb
      exact hb hcond
    · intro hlt
      have hb := hbrk hlt
      simp only [zero_add] at hb
      exact of_decide_eq_true hb
  · obtain ⟨k, hk, hpos, heq, hno, hbrk⟩ :=
      selectLoop_char (fun k tot => decide (tot > fee k + stake_deposit)) amts 0 0
    have hr : regAddrSelection fee stake_deposit amts = (k, (amts.take k).sum) := by
      unfold regAddrSelection
      rw [heq]
      simp
    rw [hr]
    refine ⟨hk, ?_, ?_⟩
    · intro j h1 hj hcond
      have hb := hno j h1 hj
      simp only [zero_add] at hb
      rw [decide_eq_false_iff_not] at hb
      exact hb hcond
    · intro hlt
      have hb := hbrk hlt
      simp only [zero_add] at hb
      exact of_decide_eq_true hb
  · obtain ⟨k, hk, hpos, heq, hno, hbrk⟩ :=
      selectLoop_char (fun k tot => decide (tot > fee k + 0)) amts 0 0
    have hr : updatePoolSelection fee amts = (k, (amts.take k).sum) := by
      unfold updatePoolSelection
      rw [heq]
      simp
    rw [hr]
    refine ⟨hk, ?_, ?_⟩
    · intro j h1 hj hcond
      have hb := hno j h1 hj
      simp only [zero_add] at hb
      rw [decide_eq_false_iff_not] at hb
      simp only [add_zero] at hb
      exact hb hcond
    · intro hlt
      have hb := hbrk hlt
      simp only [zero_add] at hb
      have := of_decide_eq_true hb
      simpa using this

/-! ## Balance, dust and failure classification of the assembled drafts -/

theorem maxsize_pos : (0 : Int) < maxsize := by decide

/-- The loop starts from `(0, 0)`, so a selection of zero UTXOs has a zero
running total. -/
theorem selectLoop_zero (brk : Nat → Int → Bool) (amts : List Int)
    (h : (selectLoop brk amts 0 0).1 = 0) : (selectLoop brk amts 0 0).2 = 0 := by
  obtain ⟨k, hk, hpos, heq, hno, hbrk⟩ := selectLoop_char brk amts 0 0
  rw [heq] at h ⊢
  simp only [Nat.zero_add] at h
  subst h
  simp

/-- Balance of the post-loop assembly in `build_raw_transaction`, for any
loop outcome `r` whose zero-count case has zero total. -/
theorem assembleAfterLoop_balance (fee : Nat → Int) (payments : List Int)
    (deposits min_utxo : Int) (r : Nat × Int) (d : Draft)
    (h0 : r.1 = 0 → r.2 = 0)
    (h : assembleAfterLoop fee payments deposits min_utxo r = BuildResult.built d) :
    d.inputsTotal = d.payments.sum + d.change.getD 0 + d.fee + d.deposits := by
  unfold assembleAfterLoop at h
  by_cases hk : r.1 = 0
  · have h2 := h0 hk
    rw [hk, h2] at h
    rw [show lovelacesOutAfter fee deposits payments.sum 0 = maxsize from rfl] at h
    rw [if_pos maxsize_pos, if_pos rfl] at h
    exact absurd h (by simp)
  · rw [show lovelacesOutAfter fee deposits payments.sum r.1 =
        fee r.1 + deposits + payments.sum from if_neg hk] at h
    rw [show minFeeAfter fee r.1 = fee r.1 from if_neg hk] at h
    simp only [] at h
    split_ifs at h with h1 h2 h3 h4 <;>
      first
        | exact BuildResult.noConfusion h
        | (injection h with h
           subst h
           simp only [Option.getD_none, Option.getD_some]
           omega)

/-- C2: for every successfully assembled draft, in `build_raw_transaction`
and in the certificate-paying `register_stake_pool`, the sum of the selected
input amounts equals the sum of the outputs (payments plus the change output
when one is emitted) plus the fee plus the deposit owed. -/
theorem drafts_balanced :
    (∀ (fee : Nat → Int) (payments : List Int) (deposits min_utxo : Int)
        (amts : List Int) (d : Draft),
      build_raw_transaction fee payments deposits min_utxo amts =
        BuildResult.built d →
      d.inputsTotal = d.payments.sum + d.change.getD 0 + d.fee + d.deposits) ∧
    (∀ (fee : Nat → Int) (pool_deposit : Int) (amts : List Int) (d : Draft),
      register_stake_pool fee pool_deposit amts = BuildResult.built d →
      d.inputsTotal = d.payments.sum + d.change.getD 0 + d.fee + d.deposits) := by
  constructor
  · intro fee payments deposits min_utxo amts d h
    unfold build_raw_transaction at h
    exact assembleAfterLoop_balance fee payments deposits min_utxo _ d
      (selectLoop_zero _ amts) h
  · intro fee pool_deposit amts d h
    unfold register_stake_pool at h
    simp only [] at h
    split_ifs at h with h1 <;>
      first
        | exact BuildResult.noConfusion h
        | (injection h with h
           subst h
           simp only [Option.getD_some, List.sum_nil]
           omega)

/-- Witness for C2: the balance law at a concrete successful build
(one input of 10, payment 3, deposit 1, fee 2, change 4). -/
theorem drafts_balanced_witness :
    (Draft.mk 10 [3] (some 4) 2 1).inputsTotal =
      (Draft.mk 10 [3] (some 4) 2 1).payments.sum +
      (Draft.mk 10 [3] (some 4) 2 1).change.getD 0 +
      (Draft.mk 10 [3] (some 4) 2 1).fee +
      (Draft.mk 10 [3] (some 4) 2 1).deposits :=
  drafts_balanced.1 (fun _ => 2) [3] 1 1 [10] (Draft.mk 10 [3] (some 4) 2 1)
    (by decide)

/-- C4 (amended): a draft assembled by `build_raw_transaction` has either no
change output or change at least `minUTxOValue` (equality is reachable
through the exhaustion path, so the bound is not strict); the certificate
variant `register_stake_address` performs no dust check at all and only
guarantees a non-negative, always-emitted change output. -/
theorem no_dust :
    (∀ (fee : Nat → Int) (payments : List Int) (deposits min_utxo : Int)
        (amts : List Int) (d : Draft),
      build_raw_transaction fee payments deposits min_utxo amts =
        BuildResult.built d →
      d.change = none ∨ ∃ c, d.change = some c ∧ min_utxo ≤ c) ∧
    (∀ (fee : Nat → Int) (stake_deposit : Int) (amts : List Int) (d : Draft),
      register_stake_address fee stake_deposit amts = BuildResult.built d →
      ∃ c, d.change = some c ∧ 0 ≤ c) := by
  constructor
  · intro fee payments deposits min_utxo amts d h
    unfold build_raw_transaction assembleAfterLoop at h
    simp only [] at h
    split_ifs at h with h1 h2 h3 h4 <;>
      first
        | exact BuildResult.noConfusion h
        | (injection h with h
           subst h
           exact Or.inl rfl)
        | (injection h with h
           subst h
           exact Or.inr ⟨_, rfl, by omega⟩)
  · intro fee stake_deposit amts d h
    unfold register_stake_address at h
    simp only [] at h
    split_ifs at h with h1 h2 <;>
      first
        | exact BuildResult.noConfusion h
        | (injection h with h
           subst h
           exact ⟨_, rfl, by omega⟩)

/-- Counterexample for C4 as stated: `register_stake_address` (fee 2,
deposit 3) on a single UTXO of 6 emits a positive change output of 1, which
is below any realistic `minUTxOValue` such as 1000000; and
`build_raw_transaction` (fee 2, `minUTxOValue` 5) on a single UTXO of 7
exhausts the list and emits a change output exactly equal to
`minUTxOValue`, not strictly greater. -/
theorem no_dust_counterexample :
    register_stake_address (fun _ => 2) 3 [6] =
      BuildResult.built (Draft.mk 6 [] (some 1) 2 3) ∧
    (0 : Int) < 1 ∧ (1 : Int) ≤ 1000000 ∧
    build_raw_transaction (fun _ => 2) [] 0 5 [7] =
      BuildResult.built (Draft.mk 7 [] (some 5) 2 0) ∧
    ¬ ((5 : Int) > 5) := by decide

/-- Witness for C4: the amended dust bound at the concrete build above. -/
theorem no_dust_witness :
    (Draft.mk 7 [] (some 5) 2 0).change = none ∨
    ∃ c, (Draft.mk 7 [] (some 5) 2 0).change = some c ∧ (5 : Int) ≤ c :=
  no_dust.1 (fun _ => 2) [] 0 5 [7] (Draft.mk 7 [] (some 5) 2 0) (by decide)

/-- C5: when `build_raw_transaction`'s loop ends with the running total
still below `lovelaces_out` (exhaustion without covering the cost), the
failure is classified: the empty-account error when the address had no
UTXOs, and otherwise the insufficient-funds error reporting the required
cost and the available total.  The side condition keeps the genuine
required cost distinct from the `sys.maxsize` sentinel the code uses to
recognize the zero-UTXO case. -/
theorem build_failure_classified (fee : Nat → Int) (payments : List Int)
    (deposits min_utxo : Int) (amts : List Int)
    (hfee : fee amts.length + deposits + payments.sum ≠ maxsize)
    (hshort : (buildSelection fee deposits payments.sum min_utxo amts).2 <
      lovelacesOutAfter fee deposits payments.sum
        (buildSelection fee deposits payments.sum min_utxo amts).1) :
    (amts = [] →
      build_raw_transaction fee payments deposits min_utxo amts =
        BuildResult.emptyAccount) ∧
    (amts ≠ [] →
      build_raw_transaction fee payments deposits min_utxo amts =
        BuildResult.insufficientFunds
          (fee amts.length + deposits + payments.sum) amts.sum) := by
  obtain ⟨k, hk, hpos, heq, hno, hbrk⟩ :=
    selectLoop_char (buildBrk fee deposits payments.sum min_utxo) amts 0 0
  have hr : buildSelection fee deposits payments.sum min_utxo amts =
      (k, (amts.take k).sum) := by
    unfold buildSelection
    rw [heq]
    simp
  constructor
  · intro hnil
    subst hnil
    unfold build_raw_transaction assembleAfterLoop
    rw [show buildSelection fee deposits payments.sum min_utxo [] = (0, 0) from rfl]
    rw [show lovelacesOutAfter fee deposits payments.sum (0, (0 : Int)).1 = maxsize
      from rfl]
    rw [if_pos maxsize_pos, if_pos rfl]
  · intro hne
    have hlen : 0 < amts.length := List.length_pos.mpr hne
    have hk1 : 1 ≤ k := hpos hlen
    have hkeq : k = amts.length := by
      by_contra hne2
      have hklt : k < amts.length := by omega
      have hb := hbrk hklt
      simp only [Nat.zero_add, zero_add] at hb
      have hcond := (buildBrk_eq_stopCond fee deposits payments.sum min_utxo amts k).mp hb
      rw [hr] at hshort
      rw [show lovelacesOutAfter fee deposits payments.sum
          ((k, (amts.take k).sum)).1 = fee k + deposits + payments.sum
        from if_neg (by omega)] at hshort
      have := hcond.1
      simp only at hshort
      omega
    unfold build_raw_transaction assembleAfterLoop
    rw [hr] at hshort ⊢
    rw [show lovelacesOutAfter fee deposits payments.sum
        ((k, (amts.take k).sum)).1 = fee k + deposits + payments.sum
      from if_neg (by omega)] at hshort ⊢
    simp only at hshort
    rw [if_pos hshort]
    rw [if_neg (by rw [hkeq] at *; exact hfee)]
    rw [hkeq]
    rw [List.take_length]

/-- Witness for C5: a single UTXO of 2 cannot cover a fee of 5; the result
is the insufficient-funds error reporting required 5 and available 2. -/
theorem build_failure_classified_witness :
    build_raw_transaction (fun _ => 5) [] 0 0 [2] =
      BuildResult.insufficientFunds 5 2 := by
  have h := (build_failure_classified (fun _ => 5) [] 0 0 [2]
    (by decide) (by decide)).2 (by decide)
  simpa using h

/-! ## Protocol-parameter fetching (lines 145-156, 310-349, 998-1035)

`load_protocol_parameters` always runs `query protocol-parameters` against
the node and overwrites `self.protocol_parameters`; `calc_min_fee` calls it
on every invocation (line 338).  The mutable object state is modelled by
`NodeState`, and the node's successive answers to the parameter query by a
function `node : Nat → P` of the query counter. -/

structure NodeState (P : Type) where
  protocol_parameters : Option P
  fetches : Nat
deriving DecidableEq

/-- `load_protocol_parameters`: query the node, overwrite the stored
parameters with the fresh document, return (the path of) that document. -/
def load_protocol_parameters {P : Type} (node : Nat → P) (s : NodeState P) :
    NodeState P :=
  { protocol_parameters := some (node s.fetches), fetches := s.fetches + 1 }

/-- `calc_min_fee`: first re-fetch the parameters (line 338), then have the
node compute the minimum fee from the freshly written parameters file and
the draft built for the current `utxo_count`. -/
def calc_min_fee {P : Type} (node : Nat → P) (feeOf : P → Nat → Int)
    (utxo_count : Nat) (s : NodeState P) : Int × NodeState P :=
  (feeOf (node s.fetches) utxo_count, load_protocol_parameters node s)

/-- The selection loop of `build_raw_transaction` with the parameter state
threaded through its `calc_min_fee` calls. -/
def buildLoopSt {P : Type} (node : Nat → P) (feeOf : P → Nat → Int)
    (deposits total_payments min_utxo : Int) :
    List Int → Nat → Int → NodeState P → Nat × Int × NodeState P
  | [], n, t, s => (n, t, s)
  | a :: rest, n, t, s =>
    let n1 := n + 1
    let t1 := t + a
    let fs := calc_min_fee node feeOf n1 s
    let lovelaces_out := fs.1 + deposits + total_payments
    let utxo_amt := t1 - lovelaces_out
    if t1 > lovelaces_out ∧ (utxo_amt > min_utxo ∨ utxo_amt = 0) then (n1, t1, fs.2)
    else buildLoopSt node feeOf deposits total_payments min_utxo rest n1 t1 fs.2

/-- Start of a `build_raw_transaction` call: the initial
`load_protocol_parameters` (line 999), `minUTxOValue` read from the stored
document (line 1000), then the loop. -/
def build_paramsFetch {P : Type} (node : Nat → P) (feeOf : P → Nat → Int)
    (deposits total_payments : Int) (minUtxoOf : P → Int) (amts : List Int)
    (s0 : NodeState P) : Nat × Int × NodeState P :=
  let s1 := load_protocol_parameters node s0
  let min_utxo := minUtxoOf (node s0.fetches)
  buildLoopSt node feeOf deposits total_payments min_utxo amts 0 0 s1

/-- State evolution of the stateful loop: each executed iteration performs
exactly one parameter fetch, and the stored document afterwards is the one
returned by the last fetch. -/
theorem buildLoopSt_char {P : Type} (node : Nat → P) (feeOf : P → Nat → Int)
    (deposits total_payments min_utxo : Int) :
    ∀ (l : List Int) (n : Nat) (t : Int) (s : NodeState P),
      ∃ k, k ≤ l.length ∧
        (buildLoopSt node feeOf deposits total_payments min_utxo l n t s).1 = n + k ∧
        (buildLoopSt node feeOf deposits total_payments min_utxo l n t s).2.2.fetches =
          s.fetches + k ∧
        (k = 0 →
          (buildLoopSt node feeOf deposits total_payments min_utxo l n t s).2.2 = s) ∧
        (0 < k →
          (buildLoopSt node feeOf deposits total_payments min_utxo
            l n t s).2.2.protocol_parameters = some (node (s.fetches + k - 1))) := by
  intro l
  induction l with
  | nil =>
    intro n t s
    exact ⟨0, by simp [buildLoopSt]⟩
  | cons a rest ih =>
    intro n t s
    by_cases hc : t + a > feeOf (node s.fetches) (n + 1) + deposits + total_payments ∧
        (t + a - (feeOf (node s.fetches) (n + 1) + deposits + total_payments) > min_utxo ∨
         t + a - (feeOf (node s.fetches) (n + 1) + deposits + total_payments) = 0)
    · refine ⟨1, by simp, ?_, ?_, ?_, ?_⟩ <;>
        simp [buildLoopSt, calc_min_fee, load_protocol_parameters, hc]
    · obtain ⟨k, hk, hcount, hfetch, hzero, hlast⟩ :=
        ih (n + 1) (t + a) (load_protocol_parameters node s)
      have hstep : buildLoopSt node feeOf deposits total_payments min_utxo
          (a :: rest) n t s =
          buildLoopSt node feeOf deposits total_payments min_utxo rest (n + 1) (t + a)
            (load_protocol_parameters node s) := by
        simp [buildLoopSt, calc_min_fee, hc]
      refine ⟨k + 1, by simpa using Nat.succ_le_succ hk, ?_, ?_, ?_, ?_⟩
      · rw [hstep, hcount]
        omega
      · rw [hstep, hfetch]
        simp [load_protocol_parameters]
        omega
      · intro h0
        exact absurd h0 (by omega)
      · intro _
        rw [hstep]
        cases Nat.eq_zero_or_pos k with
        | inl hz =>
          subst hz
          rw [hzero rfl]
          simp [load_protocol_parameters]
        | inr hp =>
          rw [hlast hp]
          simp [load_protocol_parameters]

/-- C6 (amended): within one `build_raw_transaction` call the protocol
parameters are fetched once at the start and then re-fetched by every
`calc_min_fee` call inside the selection loop — `1 + k` fetches for a loop
that runs `k` iterations — and the stored `protocol_parameters` field
afterwards holds the document returned by the last fetch, not the snapshot
fetched at the start. -/
theorem params_refetched_every_iteration {P : Type} (node : Nat → P)
    (feeOf : P → Nat → Int) (deposits total_payments : Int)
    (minUtxoOf : P → Int) (amts : List Int) (s0 : NodeState P) :
    (build_paramsFetch node feeOf deposits total_payments minUtxoOf amts s0).1 ≤
      amts.length ∧
    (build_paramsFetch node feeOf deposits total_payments minUtxoOf
        amts s0).2.2.fetches =
      s0.fetches + 1 +
        (build_paramsFetch node feeOf deposits total_payments minUtxoOf amts s0).1 ∧
    (build_paramsFetch node feeOf deposits total_payments minUtxoOf
        amts s0).2.2.protocol_parameters =
      some (node (s0.fetches +
        (build_paramsFetch node feeOf deposits total_payments minUtxoOf amts s0).1)) := by
  obtain ⟨k, hk, hcount, hfetch, hzero, hlast⟩ :=
    buildLoopSt_char node feeOf deposits total_payments
      (minUtxoOf (node s0.fetches)) amts 0 0 (load_protocol_parameters node s0)
  have hb : build_paramsFetch node feeOf deposits total_payments minUtxoOf amts s0 =
      buildLoopSt node feeOf deposits total_payments
        (minUtxoOf (node s0.fetches)) amts 0 0 (load_protocol_parameters node s0) := rfl
  rw [hb]
  have hcount2 : (buildLoopSt node feeOf deposits total_payments
      (minUtxoOf (node s0.fetches)) amts 0 0 (load_protocol_parameters node s0)).1 = k := by
    simpa using hcount
  rw [hcount2]
  refine ⟨hk, ?_, ?_⟩
  · rw [hfetch]
    simp [load_protocol_parameters]
  · cases Nat.eq_zero_or_pos k with
    | inl hz =>
      subst hz
      rw [hzero rfl]
      simp [load_protocol_parameters]
    | inr hp =>
      rw [hlast hp]
      simp [load_protocol_parameters]

/-- Counterexample for C6 as stated: with a node whose parameter documents
are numbered by query order, a build whose loop runs two iterations ends
with 3 parameter fetches (not 1) and with the stored field holding the
third document, different from the snapshot fetched at the start. -/
theorem params_refetched_counterexample :
    (build_paramsFetch (fun n => n) (fun _ _ => 2) 0 0 (fun _ => 1) [1, 10]
        (NodeState.mk none 0)).2.2.fetches = 3 ∧
    (build_paramsFetch (fun n => n) (fun _ _ => 2) 0 0 (fun _ => 1) [1, 10]
        (NodeState.mk none 0)).2.2.protocol_parameters = some 2 ∧
    ¬ ((3 : Nat) = 1) ∧ ¬ (some (2 : Nat) = some 0) := by decide

/-! ## `get_utxos` (lines 238-299)

The node's human-readable table is modelled as already tokenized rows
(`line.split()` in Python); `get_utxos` drops the two header rows and
parses each remaining row into an insertion-ordered dictionary of string
values.  The only exception the parser can raise is Python's `IndexError`
from `vals[0]`, `vals[1]`, `vals[2]` on a short row; the bare `except:` in
the token loop turns an out-of-range `+`-group into a printed warning. -/

/-- The unclassified Python exception escaping `get_utxos`. -/
inductive PyErr where
  | indexError : PyErr
deriving DecidableEq

/-- Insertion-ordered string dictionary, the model of `utxo_dict`. -/
abbrev UtxoDict := List (String × String)

/-- `utxo_dict[asset] += amt` / `utxo_dict[asset] = amt`: both values are
strings, so `+=` is string concatenation. -/
def dictInsertAdd (d : UtxoDict) (key val : String) : UtxoDict :=
  if d.any (fun p => p.1 == key) then
    d.map (fun p => if p.1 == key then (p.1, p.2 ++ val) else p)
  else d ++ [(key, val)]

/-- Parse one tokenized row (lines 266-286): the three fixed columns, then
every `+`-group, skipping (with a counted warning) any group whose tokens
run past the end of the row. -/
def parseUtxoLine (vals : List String) : Except PyErr (UtxoDict × Nat) :=
  match vals.get? 0, vals.get? 1, vals.get? 2 with
  | some v0, some v1, some v2 =>
    let base := [("TxHash", v0), ("TxIx", v1), ("Lovelace", v2)]
    let extra := (List.range vals.length).filter (fun i => vals.getD i "" == "+")
    Except.ok (extra.foldl (fun acc i =>
      match vals.get? (i + 2), vals.get? (i + 1) with
      | some asset, some amt => (dictInsertAdd acc.1 asset amt, acc.2)
      | _, _ => (acc.1, acc.2 + 1)) (base, 0))
  | _, _, _ => Except.error PyErr.indexError

/-- Parse the rows in order; the first short row raises. -/
def parseUtxoLines : List (List String) → Except PyErr (List UtxoDict × Nat)
  | [] => Except.ok ([], 0)
  | l :: rest =>
    match parseUtxoLine l with
    | Except.error e => Except.error e
    | Except.ok (d, w) =>
      match parseUtxoLines rest with
      | Except.error e => Except.error e
      | Except.ok (ds, ws) => Except.ok (d :: ds, w + ws)

def hasKey (d : UtxoDict) (key : String) : Bool :=
  d.any (fun p => p.1 == key)

/-- `get_utxos`: drop the two header rows (line 261), parse, then apply the
optional filter (lines 289-297): `"Lovelace"` keeps rows whose dictionary
has exactly the three base keys, any other token keeps rows containing it. -/
def get_utxos (rows : List (List String)) (filt : Option String) :
    Except PyErr (List UtxoDict × Nat) :=
  let raw_utxos := rows.drop 2
  match parseUtxoLines raw_utxos with
  | Except.error e => Except.error e
  | Except.ok (utxos, w) =>
    match filt with
    | none => Except.ok (utxos, w)
    | some f =>
      if f = "Lovelace" then
        Except.ok (utxos.filter (fun u => hasKey u f && u.length == 3), w)
      else
        Except.ok (utxos.filter (fun u => hasKey u f), w)

/-- C7 (amended): a row with at least the three fixed columns always parses
(trailing `+`-groups that cannot be parsed are skipped with a counted
warning, as on a bare trailing `+`), a row with fewer than three columns
terminates the query with Python's unclassified `IndexError`, and that
`IndexError` is the only error `get_utxos` can produce — no classified
`NodeQueryError` exists in the code. -/
theorem get_utxos_tolerant_rows_unclassified_error :
    (∀ vals : List String, vals.length < 3 →
      parseUtxoLine vals = Except.error PyErr.indexError) ∧
    (∀ vals : List String, 3 ≤ vals.length →
      ∃ d w, parseUtxoLine vals = Except.ok (d, w)) ∧
    (parseUtxoLine ["aa", "0", "5", "+"] =
      Except.ok ([("TxHash", "aa"), ("TxIx", "0"), ("Lovelace", "5")], 1)) ∧
    (∀ (rows : List (List String)) (filt : Option String) (e : PyErr),
      get_utxos rows filt = Except.error e → e = PyErr.indexError) := by
  refine ⟨?_, ?_, ?_, ?_⟩
  · intro vals h
    match vals with
    | [] => rfl
    | [v0] => rfl
    | [v0, v1] => rfl
    | v0 :: v1 :: v2 :: rest => simp at h; omega
  · intro vals h
    match vals with
    | v0 :: v1 :: v2 :: rest => exact ⟨_, _, rfl⟩
  · rfl
  · intro rows filt e h
    cases e
    rfl

/-- Witness for C7: a one-column row raises the unclassified index error. -/
theorem get_utxos_tolerant_witness :
    parseUtxoLine ["aa"] = Except.error PyErr.indexError :=
  get_utxos_tolerant_rows_unclassified_error.1 ["aa"] (by decide)

/-- Counterexample for C7 as stated: a failed query (empty stdout, hence a
single empty tokenized line) silently yields an empty UTXO list instead of
any error, and a row with only two columns ends the call with the
unclassified `IndexError`, not a classified `NodeQueryError`. -/
theorem get_utxos_counterexample :
    get_utxos [[]] none = Except.ok ([], 0) ∧
    get_utxos [["TxHash", "TxIx", "Amount"], ["-----"], ["abc", "0"]] none =
      Except.error PyErr.indexError := ⟨rfl, rfl⟩

/-! ## The UTXO sort (lines 991-992, 455, 1385, 1639)

`utxos.sort(key=lambda k: k["Lovelace"], reverse=True)` sorts by the
`"Lovelace"` **string** (the dictionary values are never converted to
integers before sorting).  Python's sort is stable and `reverse=True`
preserves the order of equal keys, so its result is reproduced by a stable
insertion sort descending in Python/Lean string order. -/

def lovelaceStr (d : UtxoDict) : String :=
  (((d.find? (fun p => p.1 == "Lovelace")).map Prod.snd)).getD ""

/-- Python string comparison: lexicographic in code points. -/
def charListLt : List Char → List Char → Bool
  | [], [] => false
  | [], _ :: _ => true
  | _ :: _, [] => false
  | c :: cs, d :: ds =>
    if c.toNat < d.toNat then true
    else if d.toNat < c.toNat then false
    else charListLt cs ds

def strLt (a b : String) : Bool :=
  charListLt a.data b.data

def insertDescByLovelace (a : UtxoDict) : List UtxoDict → List UtxoDict
  | [] => [a]
  | b :: rest =>
    if strLt (lovelaceStr a) (lovelaceStr b) then b :: insertDescByLovelace a rest
    else a :: b :: rest

/-- The sorted UTXO list handed to the selection loops. -/
def sortLovDesc (utxos : List UtxoDict) : List UtxoDict :=
  utxos.foldr insertDescByLovelace []

/-- Digit-string value, used to state what the numeric amount of a UTXO
actually is. -/
def amountVal (s : String) : Nat :=
  s.data.foldl (fun n c => 10 * n + (c.toNat - 48)) 0

/-- Two base-currency-only query rows with amounts 9 and 10. -/
def sampleRows : List (List String) :=
  [["TxHash", "TxIx", "Amount"], ["-----"],
   ["aa", "0", "9"], ["bb", "1", "10"]]

def utxo9 : UtxoDict := [("TxHash", "aa"), ("TxIx", "0"), ("Lovelace", "9")]

def utxo10 : UtxoDict := [("TxHash", "bb"), ("TxIx", "1"), ("Lovelace", "10")]

/-- C3 evidence (code bug): for the query returning amounts 9 and 10 (in
that order), the sort used by `build_raw_transaction` leaves the UTXO of
amount 9 first, because `"9" > "10"` as strings, even though 9 < 10 — the
list is not in descending order by base-currency amount, contradicting the
code's own comment. -/
theorem sort_is_lexicographic_not_numeric :
    get_utxos sampleRows (some "Lovelace") = Except.ok ([utxo9, utxo10], 0) ∧
    sortLovDesc [utxo9, utxo10] = [utxo9, utxo10] ∧
    amountVal (lovelaceStr utxo9) < amountVal (lovelaceStr utxo10) :=
  ⟨rfl, by decide, by decide⟩

/-! ## Transaction lifecycle tail (send_payment lines 351-399,
register_stake_address lines 497-525)

After the build succeeds, both methods sign, optionally clean up the
intermediate files, and then either submit or — when `offline=True` — only
print the signed file's path.  Neither method has a `return` statement, so
the Python functions return `None`; the observable effects are modelled as
an action trace paired with the returned value. -/

inductive LcAction where
  | sign (file : String) : LcAction
  | cleanupFile (file : String) : LcAction
  | submit (file : String) : LcAction
  | printSigned (file : String) : LcAction
deriving DecidableEq

/-- `send_payment`: build (`payment = amt * 1_000_000`, one receive
address, no certificates, zero deposit), sign, clean up the raw file when
requested, then submit unless offline — in which case the signed path is
printed, and `None` is returned either way.  A build failure propagates
(`none`). -/
def send_payment (fee : Nat → Int) (amt min_utxo : Int) (amts : List Int)
    (tx_name : String) (offline cleanup : Bool) :
    Option (List LcAction × Option String) :=
  match build_raw_transaction fee [amt * 1000000] 0 min_utxo amts with
  | BuildResult.built _ =>
    let tx_raw_file := tx_name ++ ".raw"
    let tx_signed_file := tx_name ++ ".signed"
    some (LcAction.sign tx_raw_file ::
      ((if cleanup then [LcAction.cleanupFile tx_raw_file] else []) ++
       (if offline then [LcAction.printSigned tx_signed_file]
        else [LcAction.submit tx_signed_file])), none)
  | _ => none

/-- Tail of `register_stake_address`: sign, clean up the draft and raw
files when requested, then submit unless offline. -/
def register_stake_address_op (fee : Nat → Int) (stake_deposit : Int)
    (amts : List Int) (tx_name : String) (offline cleanup : Bool) :
    Option (List LcAction × Option String) :=
  match register_stake_address fee stake_deposit amts with
  | BuildResult.built _ =>
    let tx_draft_file := tx_name ++ ".draft"
    let tx_raw_file := tx_name ++ ".raw"
    let tx_signed_file := tx_name ++ ".signed"
    some (LcAction.sign tx_raw_file ::
      ((if cleanup then
          [LcAction.cleanupFile tx_draft_file, LcAction.cleanupFile tx_raw_file]
        else []) ++
       (if offline then [LcAction.printSigned tx_signed_file]
        else [LcAction.submit tx_signed_file])), none)
  | _ => none

/-- C9 (amended): for offline builds (`send_payment` and
`register_stake_address`), submit is never invoked and the signed-artifact
path is printed; the method itself returns `None`, so the path is reported
on standard output rather than returned to the caller. -/
theorem offline_build_skips_submit :
    (∀ (fee : Nat → Int) (amt min_utxo : Int) (amts : List Int)
        (tx_name : String) (cleanup : Bool) (r : List LcAction × Option String),
      send_payment fee amt min_utxo amts tx_name true cleanup = some r →
      (∀ f, LcAction.submit f ∉ r.1) ∧
      LcAction.printSigned (tx_name ++ ".signed") ∈ r.1 ∧ r.2 = none) ∧
    (∀ (fee : Nat → Int) (stake_deposit : Int) (amts : List Int)
        (tx_name : String) (cleanup : Bool) (r : List LcAction × Option String),
      register_stake_address_op fee stake_deposit amts tx_name true cleanup = some r →
      (∀ f, LcAction.submit f ∉ r.1) ∧
      LcAction.printSigned (tx_name ++ ".signed") ∈ r.1 ∧ r.2 = none) := by
  constructor
  · intro fee amt min_utxo amts tx_name cleanup r h
    cases hb : build_raw_transaction fee [amt * 1000000] 0 min_utxo amts <;>
      simp [send_payment, hb] at h
    subst h
    refine ⟨?_, ?_, rfl⟩
    · intro f
      cases cleanup <;> simp
    · cases cleanup <;> simp
  · intro fee stake_deposit amts tx_name cleanup r h
    cases hb : register_stake_address fee stake_deposit amts <;>
      simp [register_stake_address_op, hb] at h
    subst h
    refine ⟨?_, ?_, rfl⟩
    · intro f
      cases cleanup <;> simp
    · cases cleanup <;> simp

/-- Witness for C9: a concrete offline `send_payment` run. -/
theorem offline_build_skips_submit_witness :
    (∀ f, LcAction.submit f ∉
      ([LcAction.sign ("tx" ++ ".raw"), LcAction.cleanupFile ("tx" ++ ".raw"),
        LcAction.printSigned ("tx" ++ ".signed")],
        (none : Option String)).1) ∧
    LcAction.printSigned ("tx" ++ ".signed") ∈
      ([LcAction.sign ("tx" ++ ".raw"), LcAction.cleanupFile ("tx" ++ ".raw"),
        LcAction.printSigned ("tx" ++ ".signed")],
        (none : Option String)).1 ∧
    ([LcAction.sign ("tx" ++ ".raw"), LcAction.cleanupFile ("tx" ++ ".raw"),
      LcAction.printSigned ("tx" ++ ".signed")],
      (none : Option String)).2 = none :=
  offline_build_skips_submit.1 (fun _ => 2) 1 1 [2000005] "tx" true
    ([LcAction.sign ("tx" ++ ".raw"), LcAction.cleanupFile ("tx" ++ ".raw"),
      LcAction.printSigned ("tx" ++ ".signed")], none) (by decide)

/-- Counterexample for C9 as stated: in a concrete offline `send_payment`
run, submission is indeed skipped, but the function's returned value is
`None` — the signed-artifact path only appears in the printed trace, it is
not returned to the caller. -/
theorem offline_build_counterexample :
    send_payment (fun _ => 2) 1 1 [2000005] "tx" true true =
      some ([LcAction.sign "tx.raw", LcAction.cleanupFile "tx.raw",
        LcAction.printSigned "tx.signed"], none) ∧
    ¬ ((none : Option String) = some "tx.signed") := by decide

/-! ## `build_multisignature_scripts` (lines 1087-1161) -/

/-- Entries of the generated script JSON: either a signature hash entry or
a slot-bound entry (`after`/`before`).  The bound entry's slot field holds
whatever Python value was written, possibly `None`. -/
inductive ScriptTerm where
  | sig (keyHash : String) : ScriptTerm
  | timeBound (slot : Option Int) (kind : String) : ScriptTerm
deriving DecidableEq

structure MsScript where
  scripts : List ScriptTerm
  type : String
  required : Option Int
deriving DecidableEq

/-- Python `str.lower()` restricted to ASCII. -/
def charLower (c : Char) : Char :=
  if 65 ≤ c.toNat ∧ c.toNat ≤ 90 then Char.ofNat (c.toNat + 32) else c

def pyLower (s : String) : String :=
  ⟨s.data.map charLower⟩

/-- Lines 1150-1154: the `after` bound is appended when `start_slot` is
given, and the `before` bound is appended when `end_slot` is given — but
its slot field is written from `start_slot`. -/
def addBounds (scripts : List ScriptTerm) (start_slot end_slot : Option Int) :
    List ScriptTerm :=
  (scripts ++
    (if start_slot ≠ none then [ScriptTerm.timeBound start_slot "after"] else [])) ++
  (if end_slot ≠ none then [ScriptTerm.timeBound start_slot "before"] else [])

def mkScript (scripts : List ScriptTerm) (ty : String) (req : Option Int)
    (start_slot end_slot : Option Int) : MsScript :=
  ⟨addBounds scripts start_slot end_slot, ty, req⟩

/-- `build_multisignature_scripts` (argument handling of lines 1133-1159;
the file write is omitted): hash entries, type selection with the
`atLeast` validity check, then the slot bounds. -/
def build_multisignature_scripts (key_hashes : List String) (sig_type : String)
    (required : Option Int) (start_slot end_slot : Option Int) :
    Except String MsScript :=
  let base := key_hashes.map ScriptTerm.sig
  let st := pyLower sig_type
  if st = "any" then
    Except.ok (mkScript base "any" none start_slot end_slot)
  else if st = "atleast" ∧ required ≠ none then
    match required with
    | some req =>
      if req < 1 ∨ (key_hashes.length : Int) ≤ req then
        Except.error "Invalid number of required signatures."
      else Except.ok (mkScript base "atLeast" (some req) start_slot end_slot)
    | none => Except.ok (mkScript base "all" none start_slot end_slot)
  else
    Except.ok (mkScript base "all" none start_slot end_slot)

/-- Every slot-bound entry of the generated script carries `start_slot`. -/
theorem addBounds_before_mem (key_hashes : List String)
    (start_slot : Option Int) (e : Int) :
    ScriptTerm.timeBound start_slot "before" ∈
      addBounds (key_hashes.map ScriptTerm.sig) start_slot (some e) ∧
    ∀ sl kind, ScriptTerm.timeBound sl kind ∈
      addBounds (key_hashes.map ScriptTerm.sig) start_slot (some e) →
      sl = start_slot := by
  constructor
  · unfold addBounds
    refine List.mem_append.mpr (Or.inr ?_)
    rw [if_pos (by simp)]
    exact List.mem_singleton.mpr rfl
  · intro sl kind hmem
    unfold addBounds at hmem
    rcases List.mem_append.mp hmem with hm | hm
    · rcases List.mem_append.mp hm with hm2 | hm2
      · obtain ⟨a, _, ha⟩ := List.mem_map.mp hm2
        exact ScriptTerm.noConfusion ha
      · by_cases hs : start_slot = none
        · rw [if_neg (by simp [hs])] at hm2
          exact absurd hm2 (List.not_mem_nil _)
        · rw [if_pos (by simp [hs])] at hm2
          have heq := List.mem_singleton.mp hm2
          injection heq
    · rw [if_pos (by simp)] at hm
      have heq := List.mem_singleton.mp hm
      injection heq

/-- C10: whenever `end_slot` is given, the `before` bound entry appended by
`build_multisignature_scripts` carries the value of `start_slot`; the
`end_slot` value itself is never written into the generated script (every
slot-bound entry carries `start_slot`). -/
theorem before_bound_slot_is_start_slot (key_hashes : List String)
    (sig_type : String) (required : Option Int) (start_slot : Option Int)
    (e : Int) (s : MsScript)
    (h : build_multisignature_scripts key_hashes sig_type required start_slot
      (some e) = Except.ok s) :
    ScriptTerm.timeBound start_slot "before" ∈ s.scripts ∧
    ∀ sl kind, ScriptTerm.timeBound sl kind ∈ s.scripts → sl = start_slot := by
  unfold build_multisignature_scripts at h
  simp only [] at h
  split_ifs at h with h1 h2
  · injection h with h
    subst h
    exact addBounds_before_mem key_hashes start_slot e
  · cases required with
    | none =>
      injection h with h
      subst h
      exact addBounds_before_mem key_hashes start_slot e
    | some req =>
      dsimp only at h
      split_ifs at h with h3 <;>
        first
          | exact Except.noConfusion h
          | (injection h with h
             subst h
             exact addBounds_before_mem key_hashes start_slot e)
  · injection h with h
    subst h
    exact addBounds_before_mem key_hashes start_slot e

/-- Witness for C10: an `all` script with `start_slot = 5`, `end_slot = 9`;
the `before` entry carries slot 5. -/
theorem before_bound_witness :
    ScriptTerm.timeBound (some 5) "before" ∈
      (MsScript.mk [ScriptTerm.sig "k1", ScriptTerm.sig "k2",
        ScriptTerm.timeBound (some 5) "after",
        ScriptTerm.timeBound (some 5) "before"] "all" none).scripts :=
  (before_bound_slot_is_start_slot ["k1", "k2"] "all" none (some 5) 9
    (MsScript.mk [ScriptTerm.sig "k1", ScriptTerm.sig "k2",
      ScriptTerm.timeBound (some 5) "after",
      ScriptTerm.timeBound (some 5) "before"] "all" none) (by rfl)).1

/-- Witness for C1: with constant fee 2 and UTXOs `[1, 10]`, the loop does
not stop at the first prefix (total 1 does not exceed required 2). -/
theorem build_loop_exits_witness :
    ¬ buildStopCond (fun _ => 2) 0 (List.sum ([] : List Int)) 1 [1, 10] 1 :=
  (build_loop_exit_at_first_satisfying (fun _ => 2) [] 0 1
    [1, 10]).2.2.1 1 (by decide) (by decide)

/-- Witness for C8: with constant fee 2 and pool deposit 3, the
pool-registration loop does not break at the prefix `[5]`, whose total 5
does not exceed `2 + 3 + 10`. -/
theorem variant_loops_witness :
    ¬ ((([5, 20] : List Int).take 1).sum > 2 + 3 + 10) :=
  (variant_loops_break_conditions (fun _ => 2) 0 3 [5, 20]).1.2.1 1
    (by decide) (by decide)

end CardanoTools
